import Mathlib

/-!
Verification of the `tlaplus-workbench` scripts:
`scripts/tlc_trace_summary.py` (the counterexample trace summarizer) and
`scripts/tlc_check.py` (the TLC runner's status classification).

The summarizer is a pure function of a parsed JSON document, so it is
embedded shallowly: JSON-like values become the inductive `JVal`
(floating-point numbers are omitted — no claim concerns them), Python
dictionaries become association lists with first-match lookup (dictionaries
produced by `json.loads` never carry duplicate keys, so first-match and
Python-dict lookup agree on all real inputs), and each Python helper
becomes a Lean function of the same name.

Python `==` on JSON-like values (`pyEqF`) and the structural-equality
reference relation (`structEqF`) recurse through nested lists and objects;
both are written with an explicit fuel argument so that they are structural
recursions (hence computable and kernel-reducible).  Every recursive call
strictly decreases the combined `jsize` of the two compared values, so fuel
`jsize a + jsize b` always suffices; the top-level wrappers `pyEq` and
`structEq` instantiate the fuel that way.
-/

namespace TlaWorkbench

/-- A JSON-like value as produced by Python's `json.loads`: null, booleans,
integers, strings, arrays and objects.  Objects are association lists of
string keys; JSON floating-point numbers are omitted from the model. -/
inductive JVal where
  | jnull
  | jbool (b : Bool)
  | jint (n : Int)
  | jstr (s : String)
  | jarr (xs : List JVal)
  | jobj (kvs : List (String × JVal))
deriving Repr, Inhabited

mutual

/-- Size of a JSON value, used as the fuel bound for the equality recursions. -/
def jsize : JVal → Nat
  | .jnull => 1
  | .jbool _ => 1
  | .jint _ => 1
  | .jstr _ => 1
  | .jarr xs => 1 + jsizeList xs
  | .jobj kvs => 1 + jsizeObj kvs

/-- Combined size of the elements of a JSON array. -/
def jsizeList : List JVal → Nat
  | [] => 0
  | x :: xs => 1 + jsize x + jsizeList xs

/-- Combined size of the values of a JSON object. -/
def jsizeObj : List (String × JVal) → Nat
  | [] => 0
  | (_, v) :: rest => 1 + jsize v + jsizeObj rest

end

/-- Python dictionary lookup (`d[k]` / `d.get(k)`) on an association list:
the value of the first matching key, if any. -/
def dictGet (kvs : List (String × JVal)) (k : String) : Option JVal :=
  match kvs with
  | [] => none
  | (k2, v) :: rest => if k = k2 then some v else dictGet rest k

mutual

/-- Python `==` on JSON-like values, with explicit fuel.  Mirrors CPython
semantics on `json.loads` output: `None`, strings and integers compare by
value, booleans compare equal to the integers `0`/`1` (Python's `bool` is a
subclass of `int`, so `True == 1`), lists compare element-wise, and
dictionaries compare as finite maps (same length and every key of the left
one present in the right one with an equal value). -/
def pyEqF : Nat → JVal → JVal → Bool
  | 0, _, _ => false
  | fuel+1, a, b =>
    match a, b with
    | .jnull, .jnull => true
    | .jbool x, .jbool y => x == y
    | .jbool x, .jint n => (if x then (1 : Int) else 0) == n
    | .jint n, .jbool y => n == (if y then (1 : Int) else 0)
    | .jint x, .jint y => x == y
    | .jstr x, .jstr y => x == y
    | .jarr xs, .jarr ys => pyEqListF fuel xs ys
    | .jobj xs, .jobj ys => xs.length == ys.length && pyEqObjF fuel xs ys
    | _, _ => false

/-- Python `==` on two lists: same length and element-wise equal. -/
def pyEqListF : Nat → List JVal → List JVal → Bool
  | 0, _, _ => false
  | _+1, [], [] => true
  | fuel+1, x :: xs, y :: ys => pyEqF fuel x y && pyEqListF fuel xs ys
  | _+1, _, _ => false

/-- One direction of Python's dictionary `==`: every key of the first
dictionary is present in the second with a Python-equal value. -/
def pyEqObjF : Nat → List (String × JVal) → List (String × JVal) → Bool
  | 0, _, _ => false
  | _+1, [], _ => true
  | fuel+1, (k, v) :: rest, b =>
      (match dictGet b k with
       | some w => pyEqF fuel v w
       | none => false) && pyEqObjF fuel rest b

end

/-- Python `==` on JSON-like values (fuel instantiated sufficiently). -/
def pyEq (a b : JVal) : Bool := pyEqF (jsize a + jsize b) a b

/-- The Python runtime type of a JSON value, as compared by
`type(a) is not type(b)` in `_deep_equal`.  Note `type(True)` is `bool`,
not `int`, so booleans and integers have distinct tags here. -/
def typeTag : JVal → Nat
  | .jnull => 0
  | .jbool _ => 1
  | .jint _ => 2
  | .jstr _ => 3
  | .jarr _ => 4
  | .jobj _ => 5

/-- Embedding of `_deep_equal` (tlc_trace_summary.py, lines 37-42): unequal
when the top-level Python types differ, otherwise Python `==`.  For
JSON-like values the `isinstance` branch always applies, so the
`_stable_json` fallback is unreachable and does not appear in the model. -/
def deep_equal (a b : JVal) : Bool := typeTag a == typeTag b && pyEq a b

mutual

/-- Structural equality of JSON-like values (the specification's notion of
value equality, written independently of the code): equal values must have
the same JSON shape — null, a boolean, an integer, a string, an array or an
object — with object comparison independent of key order and array
comparison exact and element-wise.  Unlike Python `==`, a boolean is never
structurally equal to an integer. -/
def structEqF : Nat → JVal → JVal → Bool
  | 0, _, _ => false
  | fuel+1, a, b =>
    match a, b with
    | .jnull, .jnull => true
    | .jbool x, .jbool y => x == y
    | .jint x, .jint y => x == y
    | .jstr x, .jstr y => x == y
    | .jarr xs, .jarr ys => structEqListF fuel xs ys
    | .jobj xs, .jobj ys => xs.length == ys.length && structEqObjF fuel xs ys
    | _, _ => false

/-- Structural equality of two arrays: same length and element-wise. -/
def structEqListF : Nat → List JVal → List JVal → Bool
  | 0, _, _ => false
  | _+1, [], [] => true
  | fuel+1, x :: xs, y :: ys => structEqF fuel x y && structEqListF fuel xs ys
  | _+1, _, _ => false

/-- One direction of structural object equality: every key of the first
object is present in the second with a structurally equal value. -/
def structEqObjF : Nat → List (String × JVal) → List (String × JVal) → Bool
  | 0, _, _ => false
  | _+1, [], _ => true
  | fuel+1, (k, v) :: rest, b =>
      (match dictGet b k with
       | some w => structEqF fuel v w
       | none => false) && structEqObjF fuel rest b

end

/-- Structural equality of JSON-like values (fuel instantiated sufficiently). -/
def structEq (a b : JVal) : Bool := structEqF (jsize a + jsize b) a b

mutual

/-- A JSON value containing no boolean anywhere. -/
def boolFree : JVal → Bool
  | .jnull => true
  | .jbool _ => false
  | .jint _ => true
  | .jstr _ => true
  | .jarr xs => boolFreeList xs
  | .jobj kvs => boolFreeObj kvs

/-- All elements of an array are boolean-free. -/
def boolFreeList : List JVal → Bool
  | [] => true
  | x :: xs => boolFree x && boolFreeList xs

/-- All values of an object are boolean-free. -/
def boolFreeObj : List (String × JVal) → Bool
  | [] => true
  | (_, v) :: rest => boolFree v && boolFreeObj rest

end

/-- Typed failures of the summarizer.  The source raises `ValueError` with a
distinguishing message; the spec names the two conditions `MalformedInput`
(input not an object, or its `state` field missing or not a list) and
`EmptyTrace` (no parsable states). -/
inductive SummError where
  | malformedInput
  | emptyTrace
deriving Repr, DecidableEq

/-- A lasso edge record as appended by the summarizer:
`{"from": from_n, "to": to_n, "action": action}` (line 101). -/
structure LassoEdge where
  lassoFrom : Int
  lassoTo : Int
  action : List (String × JVal)
deriving Repr

/-- Embedding of the `TraceStep` dataclass (tlc_trace_summary.py, lines 21-26). -/
structure TraceStep where
  idx : Nat
  state_number : Int
  action : Option (List (String × JVal))
  changed_vars : List String
deriving Repr

/-- The summary object returned by `summarize_counterexample_json`
(lines 137-150).  The `steps` field of the Python result is the list of
`TraceStep` records re-serialized field by field, which is faithfully the
list itself here. -/
structure Summary where
  states_total : Nat
  steps_emitted : Nat
  steps : List TraceStep
  lasso_edges : List LassoEdge
deriving Repr

/-- Python `isinstance(x, int)` on a JSON value, together with the integer it
denotes.  Python's `bool` is a subclass of `int` (`isinstance(True, int)` is
`True`, and `True` sorts and indexes as `1`), so a JSON boolean is accepted
here; JSON floats are not. -/
def asPyInt : JVal → Option Int
  | .jint n => some n
  | .jbool b => some (if b then 1 else 0)
  | _ => none

/-- Embedding of `_parse_state_tuple` (lines 45-50): an element parses when
it is a list of length at least two whose first element is an `int` and
whose second element is a dictionary; anything else yields `None`. -/
def parse_state_tuple : JVal → Option (Int × List (String × JVal))
  | .jarr (x0 :: x1 :: _) =>
    (match asPyInt x0, x1 with
     | some n, .jobj kvs => some (n, kvs)
     | _, _ => none)
  | _ => none

/-- Embedding of `_extract_counterexample` (lines 53-59): use the
`counterexample` field when it is present and is itself an object, else the
document itself when it is an object, else fail (`MalformedInput`). -/
def extract_counterexample : JVal → Except SummError (List (String × JVal))
  | .jobj kvs =>
    (match dictGet kvs "counterexample" with
     | some (.jobj inner) => .ok inner
     | _ => .ok kvs)
  | _ => .error .malformedInput

/-- Stable insertion of a parsed state into a list already sorted ascending
by state number: the new element goes before the first strictly greater
key, after all smaller-or-equal ones. -/
def insertState (p : Int × List (String × JVal)) :
    List (Int × List (String × JVal)) → List (Int × List (String × JVal))
  | [] => [p]
  | q :: rest => if q.1 < p.1 then q :: insertState p rest else p :: q :: rest

/-- Embedding of `parsed_states.sort(key=lambda t: t[0])` (line 79): stable
ascending sort by state number (Python's sort is stable; an element coming
earlier in the input precedes later elements with an equal key). -/
def sortStates : List (Int × List (String × JVal)) → List (Int × List (String × JVal))
  | [] => []
  | p :: rest => insertState p (sortStates rest)

/-- The value stored in `action_by_to` for a target state number:
`{"from": from_n, "action": action}` (line 105). -/
structure ActionEntry where
  src : Int
  action : List (String × JVal)
deriving Repr

/-- The `action_by_to` dictionary, as an insertion-ordered association list
with integer keys. -/
abbrev ActionIndex := List (Int × ActionEntry)

/-- Lookup in the `action_by_to` dictionary. -/
def indexGet (idx : ActionIndex) (n : Int) : Option ActionEntry :=
  match idx with
  | [] => none
  | (m, e) :: rest => if n = m then some e else indexGet rest n

/-- The action payload attached to an edge: the payload itself when it is a
dictionary, else the wrapper `{"_raw": payload}` (lines 90 and 96-97). -/
def wrap_action : JVal → List (String × JVal)
  | .jobj kvs => kvs
  | v => [("_raw", v)]

/-- One iteration of the edge-indexing loop (lines 85-105): skip anything
that is not a list of length at least three or whose endpoint state tuples
do not parse; record an edge whose target state number is less than or
equal to its source as a lasso edge; otherwise index it by target state
number, keeping the first edge seen for each target (`setdefault`). -/
def process_edge (acc : ActionIndex × List LassoEdge) (edge : JVal) :
    ActionIndex × List LassoEdge :=
  match edge with
  | .jarr (e0 :: e1 :: e2 :: _) =>
    (match parse_state_tuple e0, parse_state_tuple e2 with
     | some from_st, some to_st =>
       let action := wrap_action e1
       if to_st.1 ≤ from_st.1 then
         (acc.1, acc.2 ++ [⟨from_st.1, to_st.1, action⟩])
       else if (indexGet acc.1 to_st.1).isSome then acc
       else (acc.1 ++ [(to_st.1, ⟨from_st.1, action⟩)], acc.2)
     | _, _ => acc)
  | _ => acc

/-- Embedding of the whole edge-indexing pass (lines 81-105): when the
`action` field is a list, fold `process_edge` over it; otherwise both the
index and the lasso list stay empty. -/
def index_actions (ce : List (String × JVal)) : ActionIndex × List LassoEdge :=
  match dictGet ce "action" with
  | some (.jarr edges) => edges.foldl process_edge ([], [])
  | _ => ([], [])

/-- Python's `d.get(k)` with its implicit `None` default: a variable absent
from a state dictionary is indistinguishable from one bound to JSON null
(line 116 compares `prev_state.get(k)` with `state.get(k)`). -/
def getOrNull (kvs : List (String × JVal)) (k : String) : JVal :=
  match dictGet kvs k with
  | some v => v
  | none => .jnull

/-- Strict lexicographic order on character lists by code point, as Python
compares strings. -/
def strLtb : List Char → List Char → Bool
  | [], [] => false
  | [], _ :: _ => true
  | _ :: _, [] => false
  | c :: cs, d :: ds =>
    if c.toNat < d.toNat then true
    else if d.toNat < c.toNat then false
    else strLtb cs ds

/-- Python's `<` on strings: lexicographic by code point. -/
def strLt (a b : String) : Bool := strLtb a.data b.data

/-- Insertion into an ascending list of strings. -/
def insertStr (s : String) : List String → List String
  | [] => [s]
  | t :: rest => if strLt t s then t :: insertStr s rest else s :: t :: rest

/-- Ascending lexicographic sort of variable names, as Python's
`sorted` / `list.sort` on strings. -/
def sortStrs : List String → List String
  | [] => []
  | s :: rest => insertStr s (sortStrs rest)

/-- The keys of a state dictionary, in insertion order. -/
def objKeys (kvs : List (String × JVal)) : List String := kvs.map Prod.fst

/-- The first step's `changed_vars`: `sorted(state.keys())` (line 112). -/
def changed_vars_first (st : List (String × JVal)) : List String :=
  sortStrs (objKeys st)

/-- A later step's `changed_vars` (lines 113-118): the sorted keys drawn
from the union of both states' key sets whose values — with `None`
substituted for a missing key by `dict.get` — are not `_deep_equal`. -/
def changed_vars_step (prev st : List (String × JVal)) : List String :=
  sortStrs (((objKeys prev ++ objKeys st).dedup).filter
    (fun k => ! deep_equal (getOrNull prev k) (getOrNull st k)))

/-- The cap test `max_steps is not None and len(steps) >= max_steps`
(line 134), evaluated after the current step has been appended, when the
emitted list has length `count`. -/
def hit_cap (maxSteps : Option Int) (count : Nat) : Bool :=
  match maxSteps with
  | some k => (count : Int) ≥ k
  | none => false

/-- Embedding of the step-building loop (lines 107-135): walk the sorted
states carrying the previous state's variables and the 1-based index,
compute `changed_vars`, attach the indexed action for the state number if
present, and stop as soon as the cap is hit after appending a step. -/
def build_steps (abt : ActionIndex) (maxSteps : Option Int) :
    List (Int × List (String × JVal)) → Option (List (String × JVal)) → Nat →
    List TraceStep
  | [], _, _ => []
  | (n, st) :: rest, prev, i =>
    { idx := i, state_number := n,
      action := (indexGet abt n).map ActionEntry.action,
      changed_vars := match prev with
        | none => changed_vars_first st
        | some p => changed_vars_step p st } ::
      (if hit_cap maxSteps i then [] else build_steps abt maxSteps rest (some st) (i + 1))

/-- Embedding of `summarize_counterexample_json` (lines 62-150): unwrap the
document, require a `state` list, tolerantly parse its elements, fail with
`EmptyTrace` when none parse, sort the parsed states, index the actions,
build the steps under the optional cap, and assemble the summary. -/
def summarize_counterexample_json (doc : JVal) (maxSteps : Option Int) :
    Except SummError Summary :=
  match extract_counterexample doc with
  | .error e => .error e
  | .ok ce =>
    match dictGet ce "state" with
    | some (.jarr rawStates) =>
      let parsed := rawStates.filterMap parse_state_tuple
      if parsed.isEmpty then .error .emptyTrace
      else
        let sorted := sortStates parsed
        let idx := index_actions ce
        let steps := build_steps idx.1 maxSteps sorted none 1
        .ok { states_total := parsed.length, steps_emitted := steps.length,
              steps := steps, lasso_edges := idx.2 }
    | _ => .error .malformedInput

/-- The working document the summarizer operates on after unwrapping, or the
empty dictionary when extraction fails (used only to state theorems about
successful runs). -/
def ce_of (doc : JVal) : List (String × JVal) :=
  match extract_counterexample doc with
  | .ok ce => ce
  | .error _ => []

/-- The parsable state records of a document, in raw order. -/
def parsed_states_of (doc : JVal) : List (Int × List (String × JVal)) :=
  match dictGet (ce_of doc) "state" with
  | some (.jarr raw) => raw.filterMap parse_state_tuple
  | _ => []

/-- The parsable state records of a document, sorted ascending by state
number. -/
def sorted_states_of (doc : JVal) : List (Int × List (String × JVal)) :=
  sortStates (parsed_states_of doc)

/-- The raw edge list of a document (empty when the `action` field is
missing or not a list). -/
def action_edges_of (doc : JVal) : List JVal :=
  match dictGet (ce_of doc) "action" with
  | some (.jarr es) => es
  | _ => []

/-- Embedding of the TLC runner's outcome classification
(tlc_check.py): one of `pass`, `fail`, `timeout`, `error`. -/
inductive RunStatus where
  | pass
  | fail
  | timeout
  | error
deriving Repr, DecidableEq

/-- Embedding of the runner's status classification (tlc_check.py, lines
200-207): `fail` when the dumped counterexample file exists, else `timeout`
when the run timed out, else `pass` on exit code zero, else `error`. -/
def classify_status (traceExists timedOut : Bool) (exitCode : Int) : RunStatus :=
  if traceExists then .fail
  else if timedOut then .timeout
  else if exitCode = 0 then .pass
  else .error

/-- Embedding of the runner's exit-status mapping (tlc_check.py, lines
244-250): `pass` to 0, `fail` to 10, `timeout` to 11, `error` to 12. -/
def status_exit_code : RunStatus → Int
  | .pass => 0
  | .fail => 10
  | .timeout => 11
  | .error => 12

/-- The whole invocation's process exit code as a function of the three
classification inputs. -/
def run_exit_code (traceExists timedOut : Bool) (exitCode : Int) : Int :=
  status_exit_code (classify_status traceExists timedOut exitCode)

/-- The specification's change rule for a step beyond the first, stated in
the claim's own words: take the union of the key sets of the two states; a
key is changed when it is present in only one of the two states, or present
in both with values that differ under the deep comparison; sort the result. -/
def changed_vars_claim (prev st : List (String × JVal)) : List String :=
  sortStrs (((objKeys prev ++ objKeys st).dedup).filter (fun k =>
    match dictGet prev k, dictGet st k with
    | some v, some w => ! deep_equal v w
    | _, _ => true))

/-- The specification's shape for a parsable state element, in the claim's
words: it destructures into an (integer, mapping) pair — a JSON array whose
first element is a JSON integer and whose second element is a JSON object
(tolerating extra trailing elements, as destructuring does). -/
def destructures_int_mapping : JVal → Bool
  | .jarr (.jint _ :: .jobj _ :: _) => true
  | _ => false

/-- The amended shape for a parsable state element: as
`destructures_int_mapping`, except that the first element may also be a
JSON boolean, because Python's `bool` is a subclass of `int` and therefore
passes the code's `isinstance(item[0], int)` test. -/
def destructures_pyint_mapping : JVal → Bool
  | .jarr (x0 :: .jobj _ :: _) => (asPyInt x0).isSome
  | _ => false

/-- The lasso-edge record an edge contributes, if any: the edge must be a
list of length at least three whose endpoint state tuples both parse and
whose target state number is less than or equal to its source state number
(self-loops included). -/
def lasso_of (edge : JVal) : Option LassoEdge :=
  match edge with
  | .jarr (e0 :: e1 :: e2 :: _) =>
    (match parse_state_tuple e0, parse_state_tuple e2 with
     | some from_st, some to_st =>
       if to_st.1 ≤ from_st.1 then some ⟨from_st.1, to_st.1, wrap_action e1⟩
       else none
     | _, _ => none)
  | _ => none

/-- The step-action entry an edge contributes for target state number `n`,
if any: the edge must parse, must not be a lasso edge, and must target `n`. -/
def step_edge_of (n : Int) (edge : JVal) : Option ActionEntry :=
  match edge with
  | .jarr (e0 :: e1 :: e2 :: _) =>
    (match parse_state_tuple e0, parse_state_tuple e2 with
     | some from_st, some to_st =>
       if to_st.1 ≤ from_st.1 then none
       else if to_st.1 = n then some ⟨from_st.1, wrap_action e1⟩ else none
     | _, _ => none)
  | _ => none

/-- The first edge of the raw edge list that contributes a step action for
target state number `n` (the first-wins tie-break). -/
def first_step_edge (es : List JVal) (n : Int) : Option ActionEntry :=
  match es with
  | [] => none
  | e :: rest =>
    (match step_edge_of n e with
     | some a => some a
     | none => first_step_edge rest n)

/-- The unwrapping step as the specification words it: an input with a
`counterexample` field holding an object yields that object; any other
object yields itself; anything else has no working document. -/
def spec_unwrap : JVal → Option (List (String × JVal))
  | .jobj kvs =>
    (match dictGet kvs "counterexample" with
     | some (.jobj inner) => some inner
     | _ => some kvs)
  | _ => none

/-- The specification's `MalformedInput` condition: the unwrapped input is
not an object, or its `state` field is missing or not a sequence. -/
def malformed_input_cond (doc : JVal) : Bool :=
  match spec_unwrap doc with
  | none => true
  | some ce =>
    (match dictGet ce "state" with
     | some (.jarr _) => false
     | _ => true)

/-- The specification's `EmptyTrace` condition: the input is well-formed but
its state sequence yields zero parsable states. -/
def empty_trace_cond (doc : JVal) : Bool :=
  match spec_unwrap doc with
  | none => false
  | some ce =>
    (match dictGet ce "state" with
     | some (.jarr raw) => (raw.filterMap parse_state_tuple).isEmpty
     | _ => false)

/-- A document whose first state binds `x` to JSON null and whose second
state omits `x` entirely: `{"state": [[1, {"x": null}], [2, {}]]}`. -/
def nullDropDoc : JVal :=
  .jobj [("state", .jarr [.jarr [.jint 1, .jobj [("x", .jnull)]],
                          .jarr [.jint 2, .jobj []]])]

/-- A plain two-state document:
`{"state": [[1, {"x": 1, "y": 5}], [2, {"x": 2, "y": 5}]]}`. -/
def twoStateDoc : JVal :=
  .jobj [("state", .jarr [.jarr [.jint 1, .jobj [("x", .jint 1), ("y", .jint 5)]],
                          .jarr [.jint 2, .jobj [("x", .jint 2), ("y", .jint 5)]]])]

/-- A three-state document:
`{"state": [[1, {"x": 1}], [2, {"x": 2}], [3, {"x": 3}]]}`. -/
def threeStateDoc : JVal :=
  .jobj [("state", .jarr [.jarr [.jint 1, .jobj [("x", .jint 1)]],
                          .jarr [.jint 2, .jobj [("x", .jint 2)]],
                          .jarr [.jint 3, .jobj [("x", .jint 3)]]])]

/-- A two-state document with a forward edge 1 → 2 named `Next` and a
lasso edge 2 → 1 named `Loop`. -/
def lassoDoc : JVal :=
  .jobj [("state", .jarr [.jarr [.jint 1, .jobj [("x", .jint 1)]],
                          .jarr [.jint 2, .jobj [("x", .jint 2)]]]),
         ("action", .jarr [
            .jarr [.jarr [.jint 1, .jobj []], .jobj [("name", .jstr "Next")],
                   .jarr [.jint 2, .jobj []]],
            .jarr [.jarr [.jint 2, .jobj []], .jobj [("name", .jstr "Loop")],
                   .jarr [.jint 1, .jobj []]]])]

/-- A two-state document with two non-lasso edges targeting state 2, named
`A` (first in raw order) and `B`. -/
def dupEdgeDoc : JVal :=
  .jobj [("state", .jarr [.jarr [.jint 1, .jobj [("x", .jint 1)]],
                          .jarr [.jint 2, .jobj [("x", .jint 2)]]]),
         ("action", .jarr [
            .jarr [.jarr [.jint 1, .jobj []], .jobj [("name", .jstr "A")],
                   .jarr [.jint 2, .jobj []]],
            .jarr [.jarr [.jint 1, .jobj []], .jobj [("name", .jstr "B")],
                   .jarr [.jint 2, .jobj []]]])]

/-- The summary the code produces for `twoStateDoc` with no cap. -/
def twoStateSummary : Summary :=
  { states_total := 2, steps_emitted := 2,
    steps := [{ idx := 1, state_number := 1, action := none, changed_vars := ["x", "y"] },
              { idx := 2, state_number := 2, action := none, changed_vars := ["x"] }],
    lasso_edges := [] }

/-- The summary the code produces for `lassoDoc` with no cap. -/
def lassoSummary : Summary :=
  { states_total := 2, steps_emitted := 2,
    steps := [{ idx := 1, state_number := 1, action := none, changed_vars := ["x"] },
              { idx := 2, state_number := 2,
                action := some [("name", .jstr "Next")], changed_vars := ["x"] }],
    lasso_edges := [{ lassoFrom := 2, lassoTo := 1,
                      action := [("name", .jstr "Loop")] }] }

/-- The summary the code produces for `dupEdgeDoc` with no cap. -/
def dupEdgeSummary : Summary :=
  { states_total := 2, steps_emitted := 2,
    steps := [{ idx := 1, state_number := 1, action := none, changed_vars := ["x"] },
              { idx := 2, state_number := 2,
                action := some [("name", .jstr "A")], changed_vars := ["x"] }],
    lasso_edges := [] }

/-- The summary the code produces for `threeStateDoc` with `max_steps = 2`. -/
def threeStateCapSummary : Summary :=
  { states_total := 3, steps_emitted := 2,
    steps := [{ idx := 1, state_number := 1, action := none, changed_vars := ["x"] },
              { idx := 2, state_number := 2, action := none, changed_vars := ["x"] }],
    lasso_edges := [] }

/-- The summary the code produces for `twoStateDoc` with `max_steps = 0`:
the cap is only checked after a step has been appended, so one step is
still emitted. -/
def zeroCapSummary : Summary :=
  { states_total := 2, steps_emitted := 1,
    steps := [{ idx := 1, state_number := 1, action := none, changed_vars := ["x", "y"] }],
    lasso_edges := [] }

lemma jsize_pos (a : JVal) : 1 ≤ jsize a := by
  cases a <;> simp [jsize]

lemma structEqF_imp_pyEqF : ∀ fuel : Nat,
    (∀ a b, structEqF fuel a b = true → pyEqF fuel a b = true) ∧
    (∀ xs ys, structEqListF fuel xs ys = true → pyEqListF fuel xs ys = true) ∧
    (∀ xs ys, structEqObjF fuel xs ys = true → pyEqObjF fuel xs ys = true) := by
  intro fuel
  induction fuel with
  | zero =>
    refine ⟨?_, ?_, ?_⟩ <;> intro x y h <;>
      simp [structEqF, structEqListF, structEqObjF] at h
  | succ f ih =>
    refine ⟨?_, ?_, ?_⟩
    · intro a b h
      cases a <;> cases b <;> simp [structEqF, pyEqF] at h ⊢ <;>
        first
        | exact h
        | exact ih.2.1 _ _ h
        | exact ⟨h.1, ih.2.2 _ _ h.2⟩
    · intro xs ys h
      cases xs <;> cases ys <;> simp [structEqListF, pyEqListF] at h ⊢
      exact ⟨ih.1 _ _ h.1, ih.2.1 _ _ h.2⟩
    · intro xs ys h
      cases xs with
      | nil => simp [pyEqObjF]
      | cons hd tl =>
        obtain ⟨k, v⟩ := hd
        simp [structEqObjF, pyEqObjF] at h ⊢
        cases hg : dictGet ys k <;> rw [hg] at h
        · simp at h
        · simp at h ⊢
          exact ⟨ih.1 _ _ h.1, ih.2.2 _ _ h.2⟩

lemma structEqF_typeTag : ∀ (f : Nat) (a b : JVal),
    structEqF (f + 1) a b = true → typeTag a = typeTag b := by
  intro f a b h
  cases a <;> cases b <;> simp [structEqF] at h <;> rfl

lemma boolFree_dictGet : ∀ (ys : List (String × JVal)) (k : String) (w : JVal),
    boolFreeObj ys = true → dictGet ys k = some w → boolFree w = true := by
  intro ys
  induction ys with
  | nil => intro k w _ hg; simp [dictGet] at hg
  | cons hd tl ih =>
    obtain ⟨k2, v⟩ := hd
    intro k w hbf hg
    simp [boolFreeObj] at hbf
    by_cases hk : k = k2
    · simp [dictGet, hk] at hg
      exact hg ▸ hbf.1
    · simp [dictGet, hk] at hg
      exact ih k w hbf.2 hg

lemma pyEqF_eq_structEqF_of_boolFree : ∀ fuel : Nat,
    (∀ a b, boolFree a = true → boolFree b = true →
      pyEqF fuel a b = structEqF fuel a b) ∧
    (∀ xs ys, boolFreeList xs = true → boolFreeList ys = true →
      pyEqListF fuel xs ys = structEqListF fuel xs ys) ∧
    (∀ xs ys, boolFreeObj xs = true → boolFreeObj ys = true →
      pyEqObjF fuel xs ys = structEqObjF fuel xs ys) := by
  intro fuel
  induction fuel with
  | zero =>
    refine ⟨?_, ?_, ?_⟩ <;> intro x y _ _ <;> rfl
  | succ f ih =>
    refine ⟨?_, ?_, ?_⟩
    · intro a b ha hb
      cases a <;> cases b <;> simp [boolFree] at ha hb <;>
        simp [pyEqF, structEqF]
      · exact ih.2.1 _ _ ha hb
      · rw [ih.2.2 _ _ ha hb]
    · intro xs ys ha hb
      cases xs <;> cases ys <;> simp [boolFreeList] at ha hb <;>
        simp [pyEqListF, structEqListF]
      rw [ih.1 _ _ ha.1 hb.1, ih.2.1 _ _ ha.2 hb.2]
    · intro xs ys ha hb
      cases xs with
      | nil => rfl
      | cons hd tl =>
        obtain ⟨k, v⟩ := hd
        simp [boolFreeObj] at ha
        simp [pyEqObjF, structEqObjF]
        cases hg : dictGet ys k
        · rw [ih.2.2 _ _ ha.2 hb]
        · simp [ih.1 _ _ ha.1 (boolFree_dictGet ys k _ hb hg),
            ih.2.2 _ _ ha.2 hb]

lemma structEq_imp_deep_equal (a b : JVal) (h : structEq a b = true) :
    deep_equal a b = true := by
  obtain ⟨f, hf⟩ : ∃ f, jsize a + jsize b = f + 1 :=
    ⟨jsize a + jsize b - 1, by have := jsize_pos a; omega⟩
  unfold structEq at h
  rw [hf] at h
  have htag : typeTag a = typeTag b := structEqF_typeTag f a b h
  have hpy : pyEq a b = true := by
    unfold pyEq
    rw [hf]
    exact (structEqF_imp_pyEqF (f + 1)).1 a b h
  simp [deep_equal, hpy, htag]

lemma deep_equal_eq_structEq_of_boolFree (a b : JVal)
    (ha : boolFree a = true) (hb : boolFree b = true) :
    deep_equal a b = structEq a b := by
  have hpy : pyEq a b = structEq a b :=
    (pyEqF_eq_structEqF_of_boolFree _).1 a b ha hb
  cases hs : structEq a b with
  | false => simp [deep_equal, hpy, hs]
  | true =>
    obtain ⟨f, hf⟩ : ∃ f, jsize a + jsize b = f + 1 :=
      ⟨jsize a + jsize b - 1, by have := jsize_pos a; omega⟩
    have hs2 := hs
    unfold structEq at hs2
    rw [hf] at hs2
    have htag : typeTag a = typeTag b := structEqF_typeTag f a b hs2
    simp [deep_equal, hpy, hs, htag]

lemma insertState_length (p : Int × List (String × JVal)) :
    ∀ l, (insertState p l).length = l.length + 1 := by
  intro l
  induction l with
  | nil => rfl
  | cons q rest ih =>
    by_cases h : q.1 < p.1 <;> simp [insertState, h, ih]

lemma sortStates_length (l : List (Int × List (String × JVal))) :
    (sortStates l).length = l.length := by
  induction l with
  | nil => rfl
  | cons p rest ih => simp [sortStates, insertState_length, ih]

lemma indexGet_append (l1 l2 : ActionIndex) (n : Int) :
    indexGet (l1 ++ l2) n =
      match indexGet l1 n with
      | some a => some a
      | none => indexGet l2 n := by
  induction l1 with
  | nil => simp [indexGet]
  | cons hd tl ih =>
    obtain ⟨m, e⟩ := hd
    by_cases h : n = m <;> simp [indexGet, h, ih]

lemma process_edge_snd (acc : ActionIndex × List LassoEdge) (e : JVal) :
    (process_edge acc e).2 = acc.2 ++ (lasso_of e).toList := by
  cases e with
  | jarr xs =>
    rcases xs with _ | ⟨e0, _ | ⟨e1, _ | ⟨e2, rest⟩⟩⟩ <;>
      simp only [process_edge, lasso_of] <;> try simp
    cases h0 : parse_state_tuple e0 <;> cases h2 : parse_state_tuple e2 <;>
      simp [h0, h2]
    split
    · simp
    · split <;> simp
  | jnull => simp [process_edge, lasso_of]
  | jbool b => simp [process_edge, lasso_of]
  | jint n => simp [process_edge, lasso_of]
  | jstr s => simp [process_edge, lasso_of]
  | jobj kvs => simp [process_edge, lasso_of]

lemma foldl_process_edge_snd :
    ∀ (es : List JVal) (acc : ActionIndex × List LassoEdge),
    (es.foldl process_edge acc).2 = acc.2 ++ es.filterMap lasso_of := by
  intro es
  induction es with
  | nil => intro acc; simp
  | cons e rest ih =>
    intro acc
    simp only [List.foldl_cons, List.filterMap_cons]
    rw [ih, process_edge_snd]
    cases lasso_of e <;> simp

lemma process_edge_fst_lookup (acc : ActionIndex × List LassoEdge) (e : JVal)
    (n : Int) :
    indexGet (process_edge acc e).1 n =
      match indexGet acc.1 n with
      | some a => some a
      | none => step_edge_of n e := by
  have collapse : ∀ (o : Option ActionEntry),
      (match o with | some a => some a | none => (none : Option ActionEntry)) = o := by
    intro o; cases o <;> rfl
  cases e with
  | jarr xs =>
    rcases xs with _ | ⟨e0, _ | ⟨e1, _ | ⟨e2, rest⟩⟩⟩ <;>
      simp only [process_edge, step_edge_of] <;> try rw [collapse]
    cases h0 : parse_state_tuple e0 <;> cases h2 : parse_state_tuple e2 <;>
      simp only [h0, h2] <;> try rw [collapse]
    rename_i from_st to_st
    by_cases hlas : to_st.1 ≤ from_st.1
    · simp only [if_pos hlas]
      rw [collapse]
    · simp only [if_neg hlas]
      cases hx : indexGet acc.1 to_st.1 with
      | some a =>
        simp only [hx, Option.isSome_some, if_pos]
        cases hy : indexGet acc.1 n with
        | some b => rfl
        | none =>
          by_cases hn : to_st.1 = n
          · rw [hn] at hx; rw [hx] at hy; cases hy
          · simp [hn]
      | none =>
        simp only [hx, Option.isSome_none, Bool.false_eq_true, if_neg,
          not_false_iff]
        rw [indexGet_append]
        cases hy : indexGet acc.1 n with
        | some b => rfl
        | none =>
          by_cases hn : n = to_st.1 <;>
            simp [indexGet, hn, eq_comm]
  | jnull => simp only [process_edge, step_edge_of]; rw [collapse]
  | jbool b => simp only [process_edge, step_edge_of]; rw [collapse]
  | jint k => simp only [process_edge, step_edge_of]; rw [collapse]
  | jstr s => simp only [process_edge, step_edge_of]; rw [collapse]
  | jobj kvs => simp only [process_edge, step_edge_of]; rw [collapse]

lemma foldl_process_edge_fst :
    ∀ (es : List JVal) (acc : ActionIndex × List LassoEdge) (n : Int),
    indexGet (es.foldl process_edge acc).1 n =
      match indexGet acc.1 n with
      | some a => some a
      | none => first_step_edge es n := by
  intro es
  induction es with
  | nil =>
    intro acc n
    simp only [List.foldl_nil, first_step_edge]
    cases indexGet acc.1 n <;> rfl
  | cons e rest ih =>
    intro acc n
    simp only [List.foldl_cons]
    rw [ih, process_edge_fst_lookup]
    cases hy : indexGet acc.1 n
    · cases hz : step_edge_of n e <;> simp [first_step_edge, hz]
    · simp

lemma first_step_edge_mem :
    ∀ (es : List JVal) (n : Int) (a : ActionEntry),
    first_step_edge es n = some a → ∃ e ∈ es, step_edge_of n e = some a := by
  intro es n
  induction es with
  | nil => intro a h; simp [first_step_edge] at h
  | cons e rest ih =>
    intro a h
    simp only [first_step_edge] at h
    cases hz : step_edge_of n e
    · rw [hz] at h
      obtain ⟨e2, he2, hs⟩ := ih a h
      exact ⟨e2, List.mem_cons_of_mem _ he2, hs⟩
    · rw [hz] at h
      exact ⟨e, List.mem_cons_self _ _, by rw [hz]; exact h⟩

lemma step_edge_of_props :
    ∀ (n : Int) (e : JVal) (a : ActionEntry),
    step_edge_of n e = some a → a.src < n ∧ lasso_of e = none := by
  intro n e a h
  cases e with
  | jarr xs =>
    rcases xs with _ | ⟨e0, _ | ⟨e1, _ | ⟨e2, rest⟩⟩⟩ <;>
      simp only [step_edge_of] at h <;> try cases h
    cases h0 : parse_state_tuple e0 <;> cases h2 : parse_state_tuple e2 <;>
      simp only [h0, h2] at h <;> try cases h
    rename_i from_st to_st
    by_cases hlas : to_st.1 ≤ from_st.1
    · rw [if_pos hlas] at h; cases h
    · rw [if_neg hlas] at h
      by_cases hn : to_st.1 = n
      · rw [if_pos hn] at h
        injection h with h
        subst h
        constructor
        · show from_st.1 < n
          simp only [not_le] at hlas
          omega
        · simp [lasso_of, h0, h2, if_neg hlas]
      · rw [if_neg hn] at h; cases h
  | jnull => cases h
  | jbool b => cases h
  | jint k => cases h
  | jstr s => cases h
  | jobj kvs => cases h

lemma index_actions_eq (doc : JVal) :
    index_actions (ce_of doc) = (action_edges_of doc).foldl process_edge ([], []) := by
  unfold index_actions action_edges_of
  cases h : dictGet (ce_of doc) "action"
  · simp
  · rename_i v; cases v <;> simp

lemma extract_ce_of (kvs : List (String × JVal)) :
    extract_counterexample (.jobj kvs) = .ok (ce_of (.jobj kvs)) := by
  unfold ce_of extract_counterexample
  cases h : dictGet kvs "counterexample"
  · simp [h]
  · rename_i v; cases v <;> simp [h]

lemma summarize_ok_elim {doc : JVal} {m : Option Int} {s : Summary}
    (h : summarize_counterexample_json doc m = .ok s) :
    s.states_total = (parsed_states_of doc).length ∧
    s.steps = build_steps (index_actions (ce_of doc)).1 m (sorted_states_of doc) none 1 ∧
    s.steps_emitted = s.steps.length ∧
    s.lasso_edges = (index_actions (ce_of doc)).2 ∧
    parsed_states_of doc ≠ [] := by
  cases doc with
  | jobj kvs =>
    unfold summarize_counterexample_json at h
    rw [extract_ce_of] at h
    simp only at h
    cases hs : dictGet (ce_of (.jobj kvs)) "state" with
    | none => rw [hs] at h; cases h
    | some v =>
      cases v <;> simp only [hs] at h <;> try cases h
      rename_i raw
      by_cases hemp : (raw.filterMap parse_state_tuple).isEmpty = true
      · rw [if_pos hemp] at h; cases h
      · rw [if_neg hemp] at h
        injection h with h
        subst h
        have hps : parsed_states_of (JVal.jobj kvs) = raw.filterMap parse_state_tuple := by
          simp [parsed_states_of, hs]
        refine ⟨by simp [hps], ?_, rfl, rfl, ?_⟩
        · simp [sorted_states_of, hps]
        · rw [hps]
          simpa using hemp
  | jnull => cases h
  | jbool b => cases h
  | jint n => cases h
  | jstr s2 => cases h
  | jarr xs => cases h

lemma build_steps_length_nocap (abt : ActionIndex) :
    ∀ (l : List (Int × List (String × JVal)))
      (prev : Option (List (String × JVal))) (i : Nat),
    (build_steps abt none l prev i).length = l.length := by
  intro l
  induction l with
  | nil => intros; rfl
  | cons hd rest ih =>
    intro prev i
    obtain ⟨n, st⟩ := hd
    simp [build_steps, hit_cap, ih]

lemma build_steps_length_cap (abt : ActionIndex) (k : Int) :
    ∀ (l : List (Int × List (String × JVal)))
      (prev : Option (List (String × JVal))) (i : Nat),
    1 ≤ i → (i : Int) ≤ k →
    (build_steps abt (some k) l prev i).length = min l.length (k - i + 1).toNat := by
  intro l
  induction l with
  | nil => intros; simp [build_steps]
  | cons hd rest ih =>
    intro prev i h1 hik
    obtain ⟨n, st⟩ := hd
    by_cases hcap : (i : Int) ≥ k
    · have hc : hit_cap (some k) i = true := by
        simp [hit_cap]; omega
      simp only [build_steps, hc, if_pos, List.length_cons, List.length_nil]
      omega
    · have hc : hit_cap (some k) i = false := by
        simp [hit_cap]; omega
      simp only [build_steps, hc, Bool.false_eq_true, if_neg, not_false_iff,
        List.length_cons]
      rw [ih (some st) (i + 1) (by omega) (by omega)]
      omega

lemma build_steps_get (abt : ActionIndex) (m : Option Int) :
    ∀ (l : List (Int × List (String × JVal)))
      (prev : Option (List (String × JVal))) (i j : Nat) (step : TraceStep),
    (build_steps abt m l prev i)[j]? = some step →
    ∃ pr, l[j]? = some pr ∧
      step.idx = i + j ∧
      step.state_number = pr.1 ∧
      step.action = (indexGet abt pr.1).map ActionEntry.action ∧
      ((j = 0 ∧ ((prev = none ∧ step.changed_vars = changed_vars_first pr.2) ∨
                 (∃ p, prev = some p ∧ step.changed_vars = changed_vars_step p pr.2))) ∨
       (∃ j0 pr0, j = j0 + 1 ∧ l[j0]? = some pr0 ∧
          step.changed_vars = changed_vars_step pr0.2 pr.2)) := by
  intro l
  induction l with
  | nil => intro prev i j step h; simp [build_steps] at h
  | cons hd rest ih =>
    intro prev i j step h
    obtain ⟨n, st⟩ := hd
    simp only [build_steps] at h
    cases j with
    | zero =>
      rw [List.getElem?_cons_zero] at h
      injection h with h
      subst h
      refine ⟨(n, st), by simp, by simp, rfl, rfl, Or.inl ⟨rfl, ?_⟩⟩
      cases prev with
      | none => exact Or.inl ⟨rfl, rfl⟩
      | some p => exact Or.inr ⟨p, rfl, rfl⟩
    | succ j0 =>
      rw [List.getElem?_cons_succ] at h
      by_cases hcap : hit_cap m i = true
      · rw [if_pos hcap] at h
        simp at h
      · rw [if_neg hcap] at h
        obtain ⟨pr, hpr, hidx, hsn, hact, hch⟩ := ih (some st) (i + 1) j0 step h
        refine ⟨pr, by simp [hpr], by omega, hsn, hact, Or.inr ?_⟩
        rcases hch with ⟨hj0, hchl⟩ | ⟨j1, pr0, hj, hpr0, hch⟩
        · rcases hchl with ⟨hc, _⟩ | ⟨p, hp, hc⟩
          · cases hc
          · injection hp with hp
            subst hp
            subst hj0
            exact ⟨0, (n, st), rfl, by simp, hc⟩
        · subst hj
          exact ⟨j1 + 1, pr0, rfl, by simp [hpr0], hch⟩

/-- C1, counterexample: at the document `{"state": [[1, {"x": null}], [2, {}]]}`
the summarizer succeeds and emits `changed_vars = []` for step 2, while the
claim's rule (a key of the union present in only one of the two states is
changed) yields `["x"]`: `dict.get` substitutes `None` for the missing key,
and `_deep_equal(None, None)` holds, so a variable bound to null that
disappears is not reported as changed. -/
theorem C1_counterexample :
    (summarize_counterexample_json nullDropDoc none).toOption.map
        (fun s => s.steps.map TraceStep.changed_vars) = some [["x"], []] ∧
    changed_vars_claim [("x", JVal.jnull)] [] = ["x"] ∧
    ([] : List String) ≠ ["x"] :=
  ⟨rfl, rfl, by decide⟩

/-- C1, amended: for every successfully summarized document, the first
emitted step's `changed_vars` equals the alphabetically sorted key list of
the first sorted state, and for every later step the `changed_vars` equals
`changed_vars_step` of the two adjacent sorted states — the sorted keys of
the union whose values, with null substituted for a missing key, differ
under the deep comparison (so a key present in only one state counts as
changed exactly when its present value is not null). -/
theorem C1_theorem : ∀ (doc : JVal) (m : Option Int) (s : Summary),
    summarize_counterexample_json doc m = .ok s →
    ∀ (j : Nat) (step : TraceStep), s.steps[j]? = some step →
      (j = 0 → ∃ pr, (sorted_states_of doc)[0]? = some pr ∧
        step.changed_vars = sortStrs (objKeys pr.2)) ∧
      (∀ j0 : Nat, j = j0 + 1 → ∃ pr0 pr,
        (sorted_states_of doc)[j0]? = some pr0 ∧
        (sorted_states_of doc)[j]? = some pr ∧
        step.changed_vars = changed_vars_step pr0.2 pr.2) := by
  intro doc m s hok j step hstep
  obtain ⟨-, hsteps, -, -, -⟩ := summarize_ok_elim hok
  rw [hsteps] at hstep
  obtain ⟨pr, hpr, -, -, -, hch⟩ := build_steps_get _ _ _ _ _ _ _ hstep
  constructor
  · intro hj
    subst hj
    rcases hch with ⟨-, hl⟩ | ⟨j0, pr0, hj0, -, -⟩
    · rcases hl with ⟨-, hc⟩ | ⟨p, hp, -⟩
      · exact ⟨pr, hpr, hc⟩
      · cases hp
    · exact absurd hj0 (by omega)
  · intro j0 hj
    subst hj
    rcases hch with ⟨hj0eq, -⟩ | ⟨j1, pr1, hj1, hpr1, hc⟩
    · exact absurd hj0eq (by omega)
    · have hj1eq : j1 = j0 := by omega
      subst hj1eq
      exact ⟨pr1, pr, hpr1, hpr, hc⟩

/-- C1, witness: the amended theorem applied to the concrete document
`twoStateDoc` at step index 2. -/
theorem C1_witness :
    ∃ pr0 pr, (sorted_states_of twoStateDoc)[0]? = some pr0 ∧
      (sorted_states_of twoStateDoc)[1]? = some pr ∧
      (["x"] : List String) = changed_vars_step pr0.2 pr.2 := by
  have h := (C1_theorem twoStateDoc none twoStateSummary rfl 1
      { idx := 2, state_number := 2, action := none, changed_vars := ["x"] }
      rfl).2 0 rfl
  exact h

/-- C2, counterexample: `[true]` and `[1]` are structurally unequal (a
boolean is not an integer), yet `_deep_equal` reports no difference,
because the top-level `type` check only inspects the outermost values and
Python's nested `==` identifies `True` with `1`. -/
theorem C2_counterexample :
    structEq (.jarr [.jbool true]) (.jarr [.jint 1]) = false ∧
    deep_equal (.jarr [.jbool true]) (.jarr [.jint 1]) = true := by
  exact ⟨by decide, by decide⟩

/-- C2, amended: structural equality always implies that the
change-detection equality reports no difference (and a difference is always
a structural difference is false only up to booleans); on boolean-free
values the change-detection equality coincides exactly with structural
equality, and on all values it is total — differing or unexpected shapes
yield `false`, never an error. -/
theorem C2_theorem : ∀ a b : JVal,
    (structEq a b = true → deep_equal a b = true) ∧
    (boolFree a = true → boolFree b = true → deep_equal a b = structEq a b) := by
  intro a b
  exact ⟨structEq_imp_deep_equal a b, deep_equal_eq_structEq_of_boolFree a b⟩

/-- C2, witness: the amended theorem applied to concrete values — an object
pair equal up to key order, and a boolean-free unequal pair. -/
theorem C2_witness :
    deep_equal (.jobj [("x", .jint 1), ("y", .jarr [.jint 2])])
      (.jobj [("y", .jarr [.jint 2]), ("x", .jint 1)]) = true ∧
    deep_equal (.jobj [("x", .jint 1)]) (.jobj [("x", .jint 2)]) =
      structEq (.jobj [("x", .jint 1)]) (.jobj [("x", .jint 2)]) := by
  constructor
  · exact (C2_theorem _ _).1 (by decide)
  · exact (C2_theorem _ _).2 (by decide) (by decide)

/-- C3: for every successfully summarized document, `lasso_edges` is
exactly the in-order collection of the parsable edges whose target state
number is at most their source state number (each contributing once, in raw
encounter order), and every action attached to an emitted step comes from a
parsable non-lasso edge (one with source strictly below target) targeting
that step's state number — so a lasso edge never supplies a step's action. -/
theorem C3_theorem : ∀ (doc : JVal) (m : Option Int) (s : Summary),
    summarize_counterexample_json doc m = .ok s →
    s.lasso_edges = (action_edges_of doc).filterMap lasso_of ∧
    ∀ step ∈ s.steps, ∀ a, step.action = some a →
      ∃ e ∈ action_edges_of doc, lasso_of e = none ∧
        ∃ src, step_edge_of step.state_number e = some ⟨src, a⟩ ∧
          src < step.state_number := by
  intro doc m s hok
  obtain ⟨-, hsteps, -, hlasso, -⟩ := summarize_ok_elim hok
  constructor
  · rw [hlasso, index_actions_eq, foldl_process_edge_snd]
    simp
  · intro step hmem a hact
    rw [hsteps] at hmem
    obtain ⟨j, hj⟩ := List.mem_iff_getElem?.mp hmem
    obtain ⟨pr, -, -, hsn, hacteq, -⟩ := build_steps_get _ _ _ _ _ _ _ hj
    rw [hact] at hacteq
    have hidxlookup : indexGet (index_actions (ce_of doc)).1 pr.1 =
        first_step_edge (action_edges_of doc) pr.1 := by
      rw [index_actions_eq, foldl_process_edge_fst]
      simp [indexGet]
    rw [hidxlookup] at hacteq
    cases hfse : first_step_edge (action_edges_of doc) pr.1 with
    | none => rw [hfse] at hacteq; cases hacteq
    | some entry =>
      rw [hfse] at hacteq
      simp at hacteq
      subst hacteq
      obtain ⟨e, he, hseo⟩ := first_step_edge_mem _ _ _ hfse
      obtain ⟨hsrc, hlnone⟩ := step_edge_of_props _ _ _ hseo
      refine ⟨e, he, hlnone, entry.src, ?_, ?_⟩
      · rw [hsn]
        exact hseo
      · rw [hsn]
        exact hsrc

/-- C3, witness: the theorem applied to `lassoDoc`, whose forward edge
`Next` supplies step 2's action while the lasso edge `Loop` is excluded. -/
theorem C3_witness :
    ∃ e ∈ action_edges_of lassoDoc, lasso_of e = none ∧
      ∃ src, step_edge_of 2 e = some ⟨src, [("name", JVal.jstr "Next")]⟩ ∧
        src < 2 := by
  have h := (C3_theorem lassoDoc none lassoSummary rfl).2
      { idx := 2, state_number := 2, action := some [("name", JVal.jstr "Next")],
        changed_vars := ["x"] }
      (List.Mem.tail _ (List.Mem.head _)) _ rfl
  exact h

/-- C4: for every successfully summarized document, every emitted step's
action is exactly the (wrapped) payload of the first parsable non-lasso
edge in raw input order that targets the step's state number, or absent
when there is none — in particular, when two or more such edges target the
same state number the first one in raw order wins. -/
theorem C4_theorem : ∀ (doc : JVal) (m : Option Int) (s : Summary),
    summarize_counterexample_json doc m = .ok s →
    ∀ step ∈ s.steps,
      step.action =
        (first_step_edge (action_edges_of doc) step.state_number).map
          ActionEntry.action := by
  intro doc m s hok step hmem
  obtain ⟨-, hsteps, -, -, -⟩ := summarize_ok_elim hok
  rw [hsteps] at hmem
  obtain ⟨j, hj⟩ := List.mem_iff_getElem?.mp hmem
  obtain ⟨pr, -, -, hsn, hact, -⟩ := build_steps_get _ _ _ _ _ _ _ hj
  rw [hact, hsn]
  congr 1
  rw [index_actions_eq, foldl_process_edge_fst]
  simp [indexGet]

/-- C4, witness: the theorem applied to `dupEdgeDoc`, where two non-lasso
edges target state 2 and step 2 carries the payload of the first (`A`). -/
theorem C4_witness :
    some [("name", JVal.jstr "A")] =
      (first_step_edge (action_edges_of dupEdgeDoc) 2).map ActionEntry.action := by
  have h := C4_theorem dupEdgeDoc none dupEdgeSummary rfl
      { idx := 2, state_number := 2, action := some [("name", JVal.jstr "A")],
        changed_vars := ["x"] }
      (List.Mem.tail _ (List.Mem.head _))
  exact h

/-- C5: for every document summarized with no `max_steps` cap,
`steps_emitted` equals `states_total`, both equal the number of parsable
state records, and the emitted `steps` list has exactly that length. -/
theorem C5_theorem : ∀ (doc : JVal) (s : Summary),
    summarize_counterexample_json doc none = .ok s →
    s.steps_emitted = s.states_total ∧
    s.states_total = (parsed_states_of doc).length ∧
    s.steps.length = s.steps_emitted := by
  intro doc s hok
  obtain ⟨htot, hsteps, hemit, -, -⟩ := summarize_ok_elim hok
  have hlen : s.steps.length = (parsed_states_of doc).length := by
    rw [hsteps, build_steps_length_nocap, sorted_states_of, sortStates_length]
  exact ⟨by rw [hemit, hlen, htot], htot, by rw [hemit]⟩

/-- C5, witness: the theorem applied to the two-state document. -/
theorem C5_witness :
    twoStateSummary.steps_emitted = twoStateSummary.states_total ∧
    twoStateSummary.states_total = (parsed_states_of twoStateDoc).length ∧
    twoStateSummary.steps.length = twoStateSummary.steps_emitted := by
  exact C5_theorem twoStateDoc twoStateSummary rfl

/-- C6: summarizing with `max_steps = k` where `0 < k < N` (`N` the number
of parsable state records) emits exactly `k` steps, while `states_total`
still reports `N` and `lasso_edges` is still the full in-order collection
of lasso edges — truncation affects only the emitted steps. -/
theorem C6_theorem : ∀ (doc : JVal) (k : Int) (s : Summary),
    summarize_counterexample_json doc (some k) = .ok s →
    0 < k → k < ((parsed_states_of doc).length : Int) →
    (s.steps_emitted : Int) = k ∧
    s.states_total = (parsed_states_of doc).length ∧
    s.lasso_edges = (action_edges_of doc).filterMap lasso_of := by
  intro doc k s hok hk hkN
  obtain ⟨htot, hsteps, hemit, hlasso, -⟩ := summarize_ok_elim hok
  refine ⟨?_, htot, ?_⟩
  · rw [hemit, hsteps,
      build_steps_length_cap _ _ _ _ _ (by omega) (by omega),
      sorted_states_of, sortStates_length]
    omega
  · rw [hlasso, index_actions_eq, foldl_process_edge_snd]
    simp

/-- C6, witness: the theorem applied to the three-state document with
`max_steps = 2`. -/
theorem C6_witness :
    (threeStateCapSummary.steps_emitted : Int) = 2 ∧
    threeStateCapSummary.states_total = (parsed_states_of threeStateDoc).length ∧
    threeStateCapSummary.lasso_edges =
      (action_edges_of threeStateDoc).filterMap lasso_of := by
  exact C6_theorem threeStateDoc 2 threeStateCapSummary rfl (by decide) (by decide)

/-- C7: the summarizer fails with `MalformedInput` exactly when the
(unwrapped) input is not an object or its `state` field is missing or not a
sequence, fails with `EmptyTrace` exactly when the state sequence yields
zero parsable states, and succeeds exactly when neither condition holds —
the failure type `Except` returns no partial output, and there are no other
fatal conditions. -/
theorem C7_theorem : ∀ (doc : JVal) (m : Option Int),
    (summarize_counterexample_json doc m = .error .malformedInput ↔
      malformed_input_cond doc = true) ∧
    (summarize_counterexample_json doc m = .error .emptyTrace ↔
      empty_trace_cond doc = true) ∧
    ((∃ s, summarize_counterexample_json doc m = .ok s) ↔
      (malformed_input_cond doc = false ∧ empty_trace_cond doc = false)) := by
  intro doc m
  cases doc with
  | jobj kvs =>
    have hsu : spec_unwrap (.jobj kvs) = some (ce_of (.jobj kvs)) := by
      unfold spec_unwrap ce_of extract_counterexample
      cases h : dictGet kvs "counterexample"
      · simp [h]
      · rename_i v; cases v <;> simp [h]
    unfold summarize_counterexample_json malformed_input_cond empty_trace_cond
    rw [extract_ce_of, hsu]
    simp only
    cases hs : dictGet (ce_of (.jobj kvs)) "state" with
    | none => simp
    | some v =>
      cases v <;> simp
      rename_i raw
      cases hemp : raw.filterMap parse_state_tuple with
      | nil =>
        simp [hemp]
        exact List.filterMap_eq_nil_iff.mp hemp
      | cons p ps =>
        simp [hemp]
        have hp : p ∈ raw.filterMap parse_state_tuple := by
          rw [hemp]
          exact List.mem_cons_self _ _
        obtain ⟨x, hx, hpx⟩ := List.mem_filterMap.mp hp
        exact ⟨x, hx, by simp [hpx]⟩
  | jnull =>
    simp [summarize_counterexample_json, extract_counterexample,
      malformed_input_cond, empty_trace_cond, spec_unwrap]
  | jbool b =>
    simp [summarize_counterexample_json, extract_counterexample,
      malformed_input_cond, empty_trace_cond, spec_unwrap]
  | jint n =>
    simp [summarize_counterexample_json, extract_counterexample,
      malformed_input_cond, empty_trace_cond, spec_unwrap]
  | jstr s2 =>
    simp [summarize_counterexample_json, extract_counterexample,
      malformed_input_cond, empty_trace_cond, spec_unwrap]
  | jarr xs =>
    simp [summarize_counterexample_json, extract_counterexample,
      malformed_input_cond, empty_trace_cond, spec_unwrap]

/-- C8, counterexample: the element `[true, {}]` does not destructure into
an (integer, mapping) pair — its first component is a JSON boolean — yet
the code parses it as state `(1, {})`, because Python's `isinstance(True,
int)` holds. -/
theorem C8_counterexample :
    parse_state_tuple (.jarr [.jbool true, .jobj []]) = some (1, []) ∧
    destructures_int_mapping (.jarr [.jbool true, .jobj []]) = false :=
  ⟨rfl, rfl⟩

/-- C8, amended: an element of the state sequence contributes a parsed
state if and only if it is a list of length at least two whose first
element is a Python integer — a JSON integer or boolean — and whose second
element is a mapping; any element that does not parse is silently dropped
and parsing continues with the remaining elements. -/
theorem C8_theorem : ∀ item : JVal,
    ((parse_state_tuple item).isSome = destructures_pyint_mapping item) ∧
    (parse_state_tuple item = none → ∀ items : List JVal,
      (item :: items).filterMap parse_state_tuple =
        items.filterMap parse_state_tuple) := by
  intro item
  constructor
  · cases item with
    | jarr xs =>
      rcases xs with _ | ⟨x0, _ | ⟨x1, rest⟩⟩ <;>
        simp [parse_state_tuple, destructures_pyint_mapping]
      cases h0 : asPyInt x0 <;> cases x1 <;>
        simp [parse_state_tuple, destructures_pyint_mapping, h0]
    | jnull => rfl
    | jbool b => rfl
    | jint n => rfl
    | jstr s => rfl
    | jobj kvs => rfl
  · intro h items
    simp [List.filterMap_cons, h]

/-- C8, witness: the amended theorem applied to a malformed element, which
is dropped while the following well-formed element still parses. -/
theorem C8_witness :
    (parse_state_tuple (.jstr "bad")).isSome =
      destructures_pyint_mapping (.jstr "bad") ∧
    (JVal.jstr "bad" :: [.jarr [.jint 1, .jobj []]]).filterMap parse_state_tuple =
      [JVal.jarr [.jint 1, .jobj []]].filterMap parse_state_tuple := by
  exact ⟨(C8_theorem (.jstr "bad")).1,
    (C8_theorem (.jstr "bad")).2 rfl [.jarr [.jint 1, .jobj []]]⟩

/-- C9: the runner's status classification follows the priority order — a
counterexample file on disk means `fail`, else a timeout means `timeout`,
else exit code zero means `pass`, else `error` — and the whole invocation's
process exit code is 0 for pass, 10 for fail, 11 for timeout and 12 for
error. -/
theorem C9_theorem : ∀ (traceExists timedOut : Bool) (exitCode : Int),
    (classify_status traceExists timedOut exitCode = .fail ↔
      traceExists = true) ∧
    (classify_status traceExists timedOut exitCode = .timeout ↔
      traceExists = false ∧ timedOut = true) ∧
    (classify_status traceExists timedOut exitCode = .pass ↔
      traceExists = false ∧ timedOut = false ∧ exitCode = 0) ∧
    (classify_status traceExists timedOut exitCode = .error ↔
      traceExists = false ∧ timedOut = false ∧ exitCode ≠ 0) ∧
    run_exit_code traceExists timedOut exitCode =
      (if traceExists then 10 else if timedOut then 11
       else if exitCode = 0 then 0 else 12) := by
  intro te tmo ec
  cases te <;> cases tmo <;> by_cases h : ec = 0 <;>
    simp [classify_status, run_exit_code, status_exit_code, h]

/-- C10: every successful summarization emits at least one step, whatever
the `max_steps` value — the cap is only checked after a step has been
appended — and a non-positive `max_steps` yields exactly one step. -/
theorem C10_theorem : ∀ (doc : JVal) (m : Option Int) (s : Summary),
    summarize_counterexample_json doc m = .ok s →
    1 ≤ s.steps_emitted ∧ (∀ k : Int, m = some k → k ≤ 0 → s.steps_emitted = 1) := by
  intro doc m s hok
  obtain ⟨-, hsteps, hemit, -, hne⟩ := summarize_ok_elim hok
  have hlen : sorted_states_of doc ≠ [] := by
    intro hnil
    apply hne
    have h0 : (sorted_states_of doc).length = 0 := by rw [hnil]; rfl
    rw [sorted_states_of, sortStates_length] at h0
    exact List.length_eq_zero.mp h0
  obtain ⟨hd, tl, hcons⟩ : ∃ hd tl, sorted_states_of doc = hd :: tl := by
    cases hsort : sorted_states_of doc with
    | nil => exact absurd hsort hlen
    | cons a b => exact ⟨a, b, rfl⟩
  constructor
  · rw [hemit, hsteps, hcons]
    obtain ⟨n, st⟩ := hd
    simp only [build_steps, List.length_cons]
    omega
  · intro k hm hk
    subst hm
    rw [hemit, hsteps, hcons]
    obtain ⟨n, st⟩ := hd
    have hc : hit_cap (some k) 1 = true := by
      simp [hit_cap]; omega
    simp [build_steps, hc]

/-- C10, witness: the theorem applied to the two-state document with
`max_steps = 0`, which still emits one step. -/
theorem C10_witness :
    1 ≤ zeroCapSummary.steps_emitted ∧ zeroCapSummary.steps_emitted = 1 := by
  have h := C10_theorem twoStateDoc (some 0) zeroCapSummary rfl
  exact ⟨h.1, h.2 0 rfl (by decide)⟩


end TlaWorkbench
